import Mathlib

/-!
# Verification of the gitstat repository-lifecycle routes

A shallow embedding of `gitstat/routes.py`: the redis-backed record store,
the filesystem state of working copies, and the route helper functions
`clone_checkout_git_repository`, `run_git_clone_or_checkout`,
`update_repo_stats`, `check_repo_was_cloned`, `remove_repos_by_id` and the
explicit-id branch of `get_git_repositories`.  Python strings are Lean
strings, redis hashes are association lists, and the version-control
adapter (GitPython) is modelled by an outcome record saying which of the
caught `git.exc` operations succeed.
-/

set_option autoImplicit false

namespace GitStat

/-! ## Association lists

The redis store is modelled with association lists from string keys to
values.  `setAssoc` replaces the first binding of the key, appending a
fresh binding when none exists; `delAssoc` removes every binding of the
key; both match the behaviour of a keyed hash-map store whose keys are
unique. -/

def getAssoc {α : Type} (k : String) : List (String × α) → Option α
  | [] => none
  | (k', v) :: rest => if k' = k then some v else getAssoc k rest

def setAssoc {α : Type} (k : String) (v : α) : List (String × α) → List (String × α)
  | [] => [(k, v)]
  | (k', v') :: rest => if k' = k then (k, v) :: rest else (k', v') :: setAssoc k v rest

def delAssoc {α : Type} (k : String) : List (String × α) → List (String × α)
  | [] => []
  | (k', v') :: rest => if k' = k then delAssoc k rest else (k', v') :: delAssoc k rest

/-- Number of bindings of key `k` (a keyed store holds at most one). -/
def countKey {α : Type} (k : String) (l : List (String × α)) : Nat :=
  (l.filter (fun p => p.1 = k)).length

@[simp] theorem getAssoc_nil {α : Type} (k : String) : getAssoc (α := α) k [] = none := rfl

theorem getAssoc_setAssoc_self {α : Type} (k : String) (v : α) (l : List (String × α)) :
    getAssoc k (setAssoc k v l) = some v := by
  induction l with
  | nil => simp [getAssoc, setAssoc]
  | cons p rest ih =>
    by_cases h : p.1 = k
    · simp [getAssoc, setAssoc, h]
    · simp [getAssoc, setAssoc, h, ih]

theorem getAssoc_setAssoc_ne {α : Type} (k k' : String) (v : α) (l : List (String × α))
    (h : k' ≠ k) : getAssoc k (setAssoc k' v l) = getAssoc k l := by
  induction l with
  | nil => simp [getAssoc, setAssoc, h]
  | cons p rest ih =>
    by_cases hp : p.1 = k'
    · simp [getAssoc, setAssoc, hp, h]
    · by_cases hk : p.1 = k
      · simp [getAssoc, setAssoc, hp, hk, Ne.symm h]
      · simp [getAssoc, setAssoc, hp, hk, ih]

theorem getAssoc_delAssoc_self {α : Type} (k : String) (l : List (String × α)) :
    getAssoc k (delAssoc k l) = none := by
  induction l with
  | nil => simp [delAssoc]
  | cons p rest ih =>
    by_cases h : p.1 = k
    · simp [delAssoc, h, ih]
    · simp [delAssoc, getAssoc, h, ih]

theorem getAssoc_delAssoc_ne {α : Type} (k k' : String) (l : List (String × α))
    (h : k' ≠ k) : getAssoc k (delAssoc k' l) = getAssoc k l := by
  induction l with
  | nil => simp [delAssoc]
  | cons p rest ih =>
    by_cases hp : p.1 = k'
    · have hk : p.1 ≠ k := by rw [hp]; exact h
      simp [delAssoc, getAssoc, hp, hk, ih, h]
    · by_cases hk : p.1 = k
      · simp [delAssoc, getAssoc, hp, hk, Ne.symm h]
      · simp [delAssoc, getAssoc, hp, hk, ih]

theorem countKey_cons {α : Type} (k : String) (p : String × α) (l : List (String × α)) :
    countKey k (p :: l) = (if p.1 = k then 1 else 0) + countKey k l := by
  by_cases h : p.1 = k
  · simp [countKey, List.filter, h]
    omega
  · simp [countKey, List.filter, h]

theorem countKey_setAssoc_self {α : Type} (k : String) (v : α) (l : List (String × α)) :
    countKey k (setAssoc k v l) = max (countKey k l) 1 := by
  induction l with
  | nil => simp [countKey, setAssoc]
  | cons p rest ih =>
    by_cases h : p.1 = k
    · rw [setAssoc, if_pos h, countKey_cons, countKey_cons]
      simp [h]
    · rw [setAssoc, if_neg h, countKey_cons, countKey_cons]
      simp [h, ih]

theorem countKey_setAssoc_ne {α : Type} (k k' : String) (v : α) (l : List (String × α))
    (h : k' ≠ k) : countKey k (setAssoc k' v l) = countKey k l := by
  induction l with
  | nil => simp [countKey, setAssoc, List.filter, h]
  | cons p rest ih =>
    by_cases hp : p.1 = k'
    · rw [setAssoc, if_pos hp, countKey_cons, countKey_cons]
      simp [hp, h]
    · rw [setAssoc, if_neg hp, countKey_cons, countKey_cons, ih]

theorem getAssoc_eq_none_of_not_mem {α : Type} (k : String) (l : List (String × α))
    (h : k ∉ l.map Prod.fst) : getAssoc k l = none := by
  induction l with
  | nil => rfl
  | cons p rest ih =>
    simp only [List.map_cons, List.mem_cons] at h
    push_neg at h
    have hp : p.1 ≠ k := fun hc => h.1 hc.symm
    simp [getAssoc, hp, ih h.2]

/-! ## The record store

Redis as used by `routes.py`: plain string keys hold the url → id mapping
written by `redis.getset`, hash keys hold the per-repository records
written by `redis.hmset`, and `nextId` is the value of the
`'git_repo_id:id'` counter driven by `redis.incr`.  The two key families
never collide in the source (urls versus `git_repo_id:` names), so they
are kept in separate components. -/

/-- The field set of one redis hash; field values are the strings redis
stores after serializing the Python value. -/
abbrev Fields := List (String × String)

structure Store where
  strKeys : List (String × String)
  hashes : List (String × Fields)
  nextId : Nat
deriving DecidableEq

/-- `redis.hmget(key, field)[0]`: `none` when the hash or the field is
missing (redis treats a missing hash as empty). -/
def hget (σ : Store) (key field : String) : Option String :=
  match getAssoc key σ.hashes with
  | none => none
  | some fs => getAssoc field fs

/-- Apply the field updates of one `hmset` call left to right. -/
def setFields (fs : Fields) (updates : Fields) : Fields :=
  updates.foldl (fun acc kv => setAssoc kv.1 kv.2 acc) fs

/-- `redis.hmset(key, updates)`: set the given fields, creating the hash
when absent and keeping its other fields. -/
def hmset (σ : Store) (key : String) (updates : Fields) : Store :=
  { σ with hashes := setAssoc key (setFields ((getAssoc key σ.hashes).getD []) updates) σ.hashes }

/-- `redis.hdel(key, field)`. -/
def hdel (σ : Store) (key field : String) : Store :=
  match getAssoc key σ.hashes with
  | none => σ
  | some fs => { σ with hashes := setAssoc key (delAssoc field fs) σ.hashes }

theorem hget_hdel_self (σ : Store) (key field : String) :
    hget (hdel σ key field) key field = none := by
  unfold hdel hget
  cases h : getAssoc key σ.hashes with
  | none => simp [h]
  | some fs => simp [getAssoc_setAssoc_self, getAssoc_delAssoc_self]

theorem setFields_cons (fs : Fields) (kv : String × String) (updates : Fields) :
    setFields fs (kv :: updates) = setFields (setAssoc kv.1 kv.2 fs) updates := rfl

theorem getAssoc_setFields (f : String) (fs updates : Fields)
    (hnd : (updates.map Prod.fst).Nodup) :
    getAssoc f (setFields fs updates) =
      match getAssoc f updates with
      | some v => some v
      | none => getAssoc f fs := by
  induction updates generalizing fs with
  | nil => simp [setFields]
  | cons kv rest ih =>
    simp only [List.map_cons, List.nodup_cons] at hnd
    rw [setFields_cons]
    by_cases h : f = kv.1
    · subst h
      have hnone : getAssoc kv.1 rest = none := getAssoc_eq_none_of_not_mem _ _ hnd.1
      rw [ih _ hnd.2]
      simp [getAssoc, hnone, getAssoc_setAssoc_self]
    · rw [ih _ hnd.2]
      have h' : kv.1 ≠ f := fun hc => h hc.symm
      simp [getAssoc, h', getAssoc_setAssoc_ne _ _ _ _ h']

/-! ## The filesystem -/

/-- On-disk state of one working-copy directory: whether
`<path>/.git/index` exists and its size in bytes (`os.stat().st_size`). -/
structure WorkingCopyFs where
  gitIndexExists : Bool
  gitIndexSize : Nat
deriving DecidableEq

/-- The directories under the clone root; a path absent from `repos` does
not exist on disk. -/
structure FileSystem where
  repos : List (String × WorkingCopyFs)
deriving DecidableEq

/-- `GIT_REPOS_PATH = path.join(path.expanduser('~'), "git_repositories/")`.
`expanduser` depends on the process environment, so `~` is left
unexpanded; every claim only uses that registration and removal derive
the working-copy path from the same constant. -/
def GIT_REPOS_PATH : String := "~/git_repositories/"

/-- `os.path.join` for the relative second components built here (a url
path segment never contains `/`): append, inserting a separator unless
the first component already ends in one. -/
def pathJoin (a b : String) : String :=
  if a.data.getLast? = some '/' then a ++ b else a ++ "/" ++ b

/-- `check_repo_was_cloned(repo_path, repo_id)` (routes.py lines 125-136):
true when `repo_path/.git/index` exists, has positive size, and the
record has a truthy (non-empty) `last_checkout` value. -/
def check_repo_was_cloned (fs : FileSystem) (σ : Store) (repo_path repo_id : String) : Bool :=
  match getAssoc repo_path fs.repos with
  | none => false
  | some wc =>
    wc.gitIndexExists && decide (0 < wc.gitIndexSize) &&
      (match hget σ repo_id "last_checkout" with
       | none => false
       | some v => decide (v ≠ ""))

/-! ## Identity registry: `clone_checkout_git_repository` -/

/-- The record key built at registration:
`''.join(('git_repo_id:', str(n)))`. -/
def idKey (n : Nat) : String := "git_repo_id:" ++ Nat.repr n

structure RegResult where
  store : Store
  gitRepoId : String
  processStarted : Bool
deriving DecidableEq

/-- `clone_checkout_git_repository(url, repository)` (routes.py lines
178-199): resolve or allocate the identity for `url`, write the supplied
fields into its record with `hmset`, and start the background
clone/checkout process (unconditionally).  `redis.get(url)` is truthy
only for a non-empty stored value. -/
def clone_checkout_git_repository (url : String) (repository : Fields) (σ : Store) : RegResult :=
  let urlIdKnown : Option String :=
    match getAssoc url σ.strKeys with
    | some s => if s = "" then none else some s
    | none => none
  match urlIdKnown with
  | some knownId =>
    { store := hmset σ knownId repository, gitRepoId := knownId, processStarted := true }
  | none =>
    let newId := idKey (σ.nextId + 1)
    let σ₁ : Store := { σ with nextId := σ.nextId + 1 }
    let σ₂ : Store := { σ₁ with strKeys := setAssoc url newId σ₁.strKeys }
    { store := hmset σ₂ newId repository, gitRepoId := newId, processStarted := true }

/-! ## Stats collector: `update_repo_stats` -/

/-- One commit as surfaced by GitPython (`committer`,
`binsha.encode('hex')`, `message`). -/
structure Commit where
  committer : String
  hashHex : String
  message : String
deriving DecidableEq

/-- Environment read by `update_repo_stats`: the first token of
`du -sh <path>`, the `strftime` wall-clock string, the result of
`iter_commits(max_count=5)` (at most five entries), and the tracked
paths printed by `git ls-files`, in order. -/
structure StatsEnv where
  diskUsage : String
  checkoutTime : String
  recentCommits : List Commit
  trackedFiles : List String
deriving DecidableEq

/-- Python `str.split()` with no separator: split on runs of whitespace
and discard empty tokens.  `acc` is the current token, reversed. -/
def pySplitAux : List Char → List Char → List (List Char)
  | [], acc => if acc = [] then [] else [acc.reverse]
  | c :: cs, acc =>
    if c.isWhitespace then
      if acc = [] then pySplitAux cs []
      else acc.reverse :: pySplitAux cs []
    else pySplitAux cs (c :: acc)

def pySplit (s : List Char) : List (List Char) := pySplitAux s []

/-- The stdout of `git ls-files`: the tracked paths joined by newlines
(git prints a path containing spaces literally). -/
def lsFilesOutput : List String → List Char
  | [] => []
  | [f] => f.data
  | f :: fs => f.data ++ '\n' :: lsFilesOutput fs

/-- The `repo_stats` dictionary built by `update_repo_stats` (routes.py
lines 98-119) before it is written to the store. -/
structure RepoStats where
  recent_committer : Option String
  current_revision : Option String
  last_5_messages : List String
  total_files : Nat
  disk_usage : String
  last_checkout : String
deriving DecidableEq

def collectStats (env : StatsEnv) : RepoStats :=
  { recent_committer := env.recentCommits.head?.map Commit.committer
    current_revision := env.recentCommits.head?.map Commit.hashHex
    last_5_messages := env.recentCommits.map Commit.message
    total_files := (pySplit (lsFilesOutput env.trackedFiles)).length
    disk_usage := env.diskUsage
    last_checkout := env.checkoutTime }

/-- `str(None)`, the string redis stores for a Python `None` field
value. -/
def pyStr : Option String → String
  | none => "None"
  | some s => s

/-- The `repo_stats` dict serialized the way redis stores it: one string
per field, in the source's insertion order; the message list is stored in
its serialized form. -/
def statsFields (st : RepoStats) : Fields :=
  [("recent_committer", pyStr st.recent_committer),
   ("current_revision", pyStr st.current_revision),
   ("last_5_messages", String.intercalate "\n" st.last_5_messages),
   ("total_files", Nat.repr st.total_files),
   ("disk_usage", st.disk_usage),
   ("last_checkout", st.last_checkout)]

/-- `update_repo_stats(git_repo_id, git_repo_path, git_repo)` (routes.py
lines 86-122): collect the stats and `hmset` them, together with the
fresh `last_checkout` timestamp, into the record in one call. -/
def update_repo_stats (σ : Store) (git_repo_id : String) (env : StatsEnv) : Store :=
  hmset σ git_repo_id (statsFields (collectStats env))

theorem hget_update_repo_stats_last_checkout (σ : Store) (id : String) (env : StatsEnv) :
    hget (update_repo_stats σ id env) id "last_checkout" = some env.checkoutTime := by
  unfold update_repo_stats hmset hget
  rw [getAssoc_setAssoc_self]
  show getAssoc "last_checkout"
      (setFields ((getAssoc id σ.hashes).getD []) (statsFields (collectStats env))) =
    some env.checkoutTime
  rw [getAssoc_setFields _ _ _ (by simp [statsFields])]
  simp [statsFields, getAssoc, collectStats]

/-! ## Lifecycle orchestrator: `run_git_clone_or_checkout` -/

/-- Observable steps of one background unit of work, each paired below
with the store as the step completes. -/
inductive Event where
  | lockAcquire (key : String)
  | hdelLastCheckout
  | gitOpenRepo (p : String)
  | gitCheckoutBranch (b : String)
  | gitClone (url branch p : String)
  | gitCheckoutRevision (r : String)
  | writeStats
  | logError
  | lockRelease (key : String)
deriving DecidableEq

/-- Outcome model for the version-control adapter: whether each call made
inside the `try` block raises one of the caught `git.exc` errors, and the
on-disk working copy a successful clone leaves behind. -/
structure GitBehavior where
  openOk : Bool
  checkoutBranchOk : Bool
  cloneOk : Bool
  checkoutRevisionOk : Bool
  cloneResult : WorkingCopyFs
deriving DecidableEq

/-- `redis.hmget(git_repo_id, 'branch')[0] or 'master'` (Python
truthiness: `None` and the empty string both fall back). -/
def repoBranch (σ : Store) (id : String) : String :=
  match hget σ id "branch" with
  | some b => if b = "" then "master" else b
  | none => "master"

/-- The pinned revision; `None` and the empty string count as absent
(`if repo_revision:`). -/
def repoRevision (σ : Store) (id : String) : Option String :=
  match hget σ id "revision" with
  | some r => if r = "" then none else some r
  | none => none

/-- Python `str.split(sep)` for a one-character separator: split at every
occurrence, keeping empty pieces.  `acc` is the current piece, reversed. -/
def pySplitChar (sep : Char) : List Char → List Char → List (List Char)
  | [], acc => [acc.reverse]
  | c :: cs, acc =>
    if c = sep then acc.reverse :: pySplitChar sep cs []
    else pySplitChar sep cs (c :: acc)

/-- `repo_url.split('/')[-1]`. -/
def repoName (url : String) : String :=
  ((pySplitChar '/' url.data []).map List.asString).getLastD ""

structure RunResult where
  trace : List (Event × Store)
  store : Store
  fs : FileSystem
deriving DecidableEq

/-- Lines 158-164: the update-or-clone branch of the `try` body.  Returns
the events with their store snapshots, the store and filesystem after the
branch, and whether no caught git error was raised so far. -/
def runStage₁ (σ₀ : Store) (fs : FileSystem) (id : String) (git : GitBehavior)
    (repo_url repo_branch git_repo_path : String) :
    List (Event × Store) × Store × FileSystem × Bool :=
  if check_repo_was_cloned fs σ₀ git_repo_path id then
    let σh := hdel σ₀ id "last_checkout"
    if git.openOk then
      ([(Event.hdelLastCheckout, σh), (Event.gitOpenRepo git_repo_path, σh),
        (Event.gitCheckoutBranch repo_branch, σh)], σh, fs, git.checkoutBranchOk)
    else
      ([(Event.hdelLastCheckout, σh), (Event.gitOpenRepo git_repo_path, σh)], σh, fs, false)
  else
    if git.cloneOk then
      ([(Event.gitClone repo_url repo_branch git_repo_path, σ₀)], σ₀,
       ⟨setAssoc git_repo_path git.cloneResult fs.repos⟩, true)
    else
      ([(Event.gitClone repo_url repo_branch git_repo_path, σ₀)], σ₀, fs, false)

/-- Lines 166-167: `if repo_revision: GitRepo.git.checkout(repo_revision)`,
skipped when a git error was already raised. -/
def runStage₂ (σ₁ : Store) (ok₁ : Bool) (rv : Option String) (git : GitBehavior) :
    List (Event × Store) × Bool :=
  if ok₁ then
    match rv with
    | some r => ([(Event.gitCheckoutRevision r, σ₁)], git.checkoutRevisionOk)
    | none => ([], true)
  else ([], false)

/-- Lines 169-173: `update_repo_stats` on success, the `except` logging on
a caught git error. -/
def runStage₃ (σ₁ : Store) (ok₂ : Bool) (id : String) (env : StatsEnv) :
    List (Event × Store) × Store :=
  if ok₂ then
    let σs := update_repo_stats σ₁ id env
    ([(Event.writeStats, σs)], σs)
  else ([(Event.logError, σ₁)], σ₁)

/-- `run_git_clone_or_checkout(git_repo_id)` (routes.py lines 139-175) as
a snapshot trace: `none` when the record has no `url` field (the Python
code would crash on `None.split` before taking the lock).  The exclusive
flock is taken on `repo_name + '.lock'` at entry and released after the
`try`/`except` on every modelled path. -/
def run_git_clone_or_checkout (σ₀ : Store) (fs : FileSystem) (git_repo_id : String)
    (git : GitBehavior) (env : StatsEnv) : Option RunResult :=
  match hget σ₀ git_repo_id "url" with
  | none => none
  | some repo_url =>
    let lockKey := repoName repo_url ++ ".lock"
    let git_repo_path := pathJoin GIT_REPOS_PATH (repoName repo_url)
    let s₁ := runStage₁ σ₀ fs git_repo_id git repo_url (repoBranch σ₀ git_repo_id) git_repo_path
    let s₂ := runStage₂ s₁.2.1 s₁.2.2.2 (repoRevision σ₀ git_repo_id) git
    let s₃ := runStage₃ s₁.2.1 s₂.2 git_repo_id env
    some { trace := (Event.lockAcquire lockKey, σ₀) ::
             (s₁.1 ++ (s₂.1 ++ (s₃.1 ++ [(Event.lockRelease lockKey, s₃.2)]))),
           store := s₃.2, fs := s₁.2.2.1 }

/-! ## Removal workflow: `remove_repos_by_id` -/

inductive RemoveError where
  | notYetCloned (i : Nat)
  | unknownRepository (i : Nat)
deriving DecidableEq

structure RemoveOutcome where
  store : Store
  fs : FileSystem
  error : Option RemoveError
deriving DecidableEq

/-- `remove_repos_by_id(repo_ids)` (routes.py lines 249-277): process ids
in order; a materialized repository loses its working copy subtree, its
record, and its url key; the first id whose record is missing (falsy
url) or not yet cloned raises `BadRequest`, ending the loop with the
earlier removals kept. -/
def remove_repos_by_id (σ : Store) (fs : FileSystem) : List Nat → RemoveOutcome
  | [] => ⟨σ, fs, none⟩
  | i :: rest =>
    let git_repo_id := idKey i
    match hget σ git_repo_id "url" with
    | some repo_url =>
      if repo_url = "" then ⟨σ, fs, some (RemoveError.unknownRepository i)⟩
      else
        let git_repo_path := pathJoin GIT_REPOS_PATH (repoName repo_url)
        if check_repo_was_cloned fs σ git_repo_path git_repo_id then
          remove_repos_by_id
            { strKeys := delAssoc repo_url σ.strKeys,
              hashes := delAssoc git_repo_id σ.hashes,
              nextId := σ.nextId }
            ⟨delAssoc git_repo_path fs.repos⟩ rest
        else ⟨σ, fs, some (RemoveError.notYetCloned i)⟩
    | none => ⟨σ, fs, some (RemoveError.unknownRepository i)⟩

/-! ## `get_git_repositories` with an explicit id list -/

/-- The explicit-id branch of the GET handler (routes.py lines 52-83):
each supplied id is used verbatim as the `hgetall` key (redis encodes the
number in decimal), and the response pairs that key with the returned
field map, `{}` when the key holds no hash. -/
def get_git_repositories_by_ids (σ : Store) (ids : List Nat) : List (String × Fields) :=
  ids.map (fun i => (Nat.repr i, (getAssoc (Nat.repr i) σ.hashes).getD []))

/-! ## Decimal representation

Facts about `Nat.repr` needed for the `'git_repo_id:' + str(n)` keys:
distinct counter values give distinct keys, and a bare decimal id is
never equal to a record key. -/

theorem toDigitsCore_append (b : Nat) :
    ∀ (f n : Nat) (l₁ l₂ : List Char),
      Nat.toDigitsCore b f n (l₁ ++ l₂) = Nat.toDigitsCore b f n l₁ ++ l₂ := by
  intro f
  induction f with
  | zero => intro n l₁ l₂; rfl
  | succ f ih =>
    intro n l₁ l₂
    simp only [Nat.toDigitsCore]
    by_cases h : n / b = 0
    · simp [h]
    · simp only [h, if_false]
      have := ih (n / b) (Nat.digitChar (n % b) :: l₁) l₂
      simpa using this

theorem toDigitsCore_eq_digits :
    ∀ (f n : Nat), 0 < n → n < f →
      Nat.toDigitsCore 10 f n [] = ((Nat.digits 10 n).map Nat.digitChar).reverse := by
  intro f
  induction f with
  | zero => intro n _ h; omega
  | succ f ih =>
    intro n h0 hf
    have hd : Nat.digits 10 n = n % 10 :: Nat.digits 10 (n / 10) :=
      Nat.digits_def' (by norm_num) h0
    simp only [Nat.toDigitsCore]
    by_cases h : n / 10 = 0
    · simp [h, hd]
    · have h1 : 0 < n / 10 := Nat.pos_of_ne_zero h
      have h2 : n / 10 < f := by
        have : n / 10 < n := Nat.div_lt_self h0 (by norm_num)
        omega
      rw [if_neg h]
      have hacc : Nat.toDigitsCore 10 f (n / 10) [Nat.digitChar (n % 10)] =
          Nat.toDigitsCore 10 f (n / 10) [] ++ [Nat.digitChar (n % 10)] := by
        have := toDigitsCore_append 10 f (n / 10) [] [Nat.digitChar (n % 10)]
        simpa using this
      rw [hacc, ih _ h1 h2, hd]
      simp

/-- `Nat.digits 10` patched at zero so that it matches what `Nat.toDigits`
prints: `0` is rendered as the single digit `0`. -/
def decDigits (n : Nat) : List Nat := if n = 0 then [0] else Nat.digits 10 n

theorem toDigits_eq_decDigits (n : Nat) :
    Nat.toDigits 10 n = ((decDigits n).map Nat.digitChar).reverse := by
  by_cases h : n = 0
  · subst h; rfl
  · rw [decDigits, if_neg h]
    exact toDigitsCore_eq_digits (n + 1) n (Nat.pos_of_ne_zero h) (Nat.lt_succ_self n)

theorem decDigits_lt (n : Nat) : ∀ d ∈ decDigits n, d < 10 := by
  intro d hd
  by_cases h : n = 0
  · subst h
    simp [decDigits] at hd
    omega
  · rw [decDigits, if_neg h] at hd
    exact Nat.digits_lt_base (by norm_num) hd

theorem decDigits_ne_nil (n : Nat) : decDigits n ≠ [] := by
  by_cases h : n = 0
  · subst h; simp [decDigits]
  · rw [decDigits, if_neg h]
    exact Nat.digits_ne_nil_iff_ne_zero.mpr h

theorem decDigits_inj {m n : Nat} (h : decDigits m = decDigits n) : m = n := by
  by_cases hm : m = 0 <;> by_cases hn : n = 0
  · omega
  · subst hm
    rw [decDigits, if_pos rfl, decDigits, if_neg hn] at h
    have := congrArg (Nat.ofDigits 10) h
    rw [Nat.ofDigits_digits] at this
    simp [Nat.ofDigits] at this
    omega
  · subst hn
    rw [decDigits, if_neg hm, decDigits, if_pos rfl] at h
    have := congrArg (Nat.ofDigits 10) h
    rw [Nat.ofDigits_digits] at this
    simp [Nat.ofDigits] at this
    omega
  · rw [decDigits, if_neg hm, decDigits, if_neg hn] at h
    have := congrArg (Nat.ofDigits 10) h
    rwa [Nat.ofDigits_digits, Nat.ofDigits_digits] at this

theorem digitChar_inj_fin : ∀ a b : Fin 10, Nat.digitChar a.1 = Nat.digitChar b.1 → a = b := by
  decide

theorem digitChar_inj_of_lt {a b : Nat} (ha : a < 10) (hb : b < 10)
    (h : Nat.digitChar a = Nat.digitChar b) : a = b := by
  have := digitChar_inj_fin ⟨a, ha⟩ ⟨b, hb⟩ h
  exact congrArg Fin.val this

theorem digitChar_ne_g : ∀ a : Fin 10, Nat.digitChar a.1 ≠ 'g' := by
  decide

theorem map_digitChar_inj :
    ∀ (l₁ l₂ : List Nat), (∀ x ∈ l₁, x < 10) → (∀ x ∈ l₂, x < 10) →
      l₁.map Nat.digitChar = l₂.map Nat.digitChar → l₁ = l₂ := by
  intro l₁
  induction l₁ with
  | nil => intro l₂ _ _ h; cases l₂ <;> simp_all
  | cons a l ih =>
    intro l₂ h1 h2 h
    cases l₂ with
    | nil => simp_all
    | cons b l' =>
      simp only [List.map_cons, List.cons.injEq] at h
      have hab : a = b :=
        digitChar_inj_of_lt (h1 a (by simp)) (h2 b (by simp)) h.1
      subst hab
      have := ih l' (fun x hx => h1 x (by simp [hx])) (fun x hx => h2 x (by simp [hx])) h.2
      simp [this]

theorem nat_repr_data (n : Nat) : (Nat.repr n).data = Nat.toDigits 10 n := rfl

theorem nat_repr_inj {m n : Nat} (h : (Nat.repr m).data = (Nat.repr n).data) : m = n := by
  rw [nat_repr_data, nat_repr_data, toDigits_eq_decDigits, toDigits_eq_decDigits] at h
  have hrev := List.reverse_injective h
  exact decDigits_inj (map_digitChar_inj _ _ (decDigits_lt m) (decDigits_lt n) hrev)

theorem toDigits_head (n : Nat) :
    ∃ d rest, d < 10 ∧ Nat.toDigits 10 n = Nat.digitChar d :: rest := by
  have hne : decDigits n ≠ [] := decDigits_ne_nil n
  obtain ⟨d, l, hrev⟩ : ∃ d l, (decDigits n).reverse = d :: l := by
    cases hr : (decDigits n).reverse with
    | nil =>
      exfalso
      apply hne
      simpa using congrArg List.reverse hr
    | cons d l => exact ⟨d, l, rfl⟩
  refine ⟨d, l.map Nat.digitChar, ?_, ?_⟩
  · apply decDigits_lt n
    have : d ∈ (decDigits n).reverse := by rw [hrev]; exact List.mem_cons_self _ _
    simpa using this
  · rw [toDigits_eq_decDigits, ← List.map_reverse, hrev, List.map_cons]

theorem repr_ne_idKey (n m : Nat) : Nat.repr n ≠ idKey m := by
  intro h
  have hdata := congrArg String.data h
  rw [idKey, String.data_append, nat_repr_data] at hdata
  obtain ⟨d, rest, hd, he⟩ := toDigits_head n
  rw [he] at hdata
  have : Nat.digitChar d = 'g' := by
    have : ("git_repo_id:").data = 'g' :: "it_repo_id:".data := rfl
    rw [this] at hdata
    exact (List.cons.injEq _ _ _ _).mp hdata |>.1
  exact digitChar_ne_g ⟨d, hd⟩ this

theorem idKey_inj {m n : Nat} (h : idKey m = idKey n) : m = n := by
  have hdata := congrArg String.data h
  rw [idKey, idKey, String.data_append, String.data_append, nat_repr_data, nat_repr_data]
    at hdata
  have := List.append_cancel_left hdata
  exact nat_repr_inj (by rw [nat_repr_data, nat_repr_data]; exact this)

theorem idKey_ne_empty (n : Nat) : idKey n ≠ "" := by
  intro h
  have hdata := congrArg String.data h
  rw [idKey, String.data_append] at hdata
  simp at hdata

/-! ## Claim C1 -/

/-- C1: for every URL `u` not yet mapped (and a fresh next counter value,
which the monotone counter guarantees), calling
`clone_checkout_git_repository` twice returns the same identity both
times, the second call reuses the existing url-to-id mapping, does not
advance the identity counter, and the store holds exactly one record
under that identity. -/
theorem c1_resolve_twice_same_identity (σ₀ : Store) (u : String) (rep₁ rep₂ : Fields)
    (hu : getAssoc u σ₀.strKeys = none)
    (hfresh : countKey (idKey (σ₀.nextId + 1)) σ₀.hashes = 0) :
    let r₁ := clone_checkout_git_repository u rep₁ σ₀
    let r₂ := clone_checkout_git_repository u rep₂ r₁.store
    r₂.gitRepoId = r₁.gitRepoId ∧
    getAssoc u r₂.store.strKeys = some r₁.gitRepoId ∧
    r₂.store.nextId = r₁.store.nextId ∧
    countKey r₁.gitRepoId r₂.store.hashes = 1 := by
  intro r₁ r₂
  have h₁ : r₁ = { store := { strKeys := setAssoc u (idKey (σ₀.nextId + 1)) σ₀.strKeys,
                              hashes := setAssoc (idKey (σ₀.nextId + 1))
                                (setFields ((getAssoc (idKey (σ₀.nextId + 1)) σ₀.hashes).getD [])
                                  rep₁) σ₀.hashes,
                              nextId := σ₀.nextId + 1 },
                   gitRepoId := idKey (σ₀.nextId + 1), processStarted := true } := by
    show clone_checkout_git_repository u rep₁ σ₀ = _
    simp [clone_checkout_git_repository, hu, hmset]
  have hlook : getAssoc u r₁.store.strKeys = some (idKey (σ₀.nextId + 1)) := by
    rw [h₁]
    exact getAssoc_setAssoc_self _ _ _
  have h₂ : r₂ = { store := hmset r₁.store (idKey (σ₀.nextId + 1)) rep₂,
                   gitRepoId := idKey (σ₀.nextId + 1), processStarted := true } := by
    show clone_checkout_git_repository u rep₂ r₁.store = _
    simp [clone_checkout_git_repository, hlook, idKey_ne_empty]
  refine ⟨?_, ?_, ?_, ?_⟩
  · rw [h₂, h₁]
  · rw [h₂, h₁]
    simp only [hmset]
    exact getAssoc_setAssoc_self _ _ _
  · rw [h₂, h₁]
    simp [hmset]
  · rw [h₂, h₁]
    simp only [hmset]
    rw [countKey_setAssoc_self, countKey_setAssoc_self, hfresh]
    decide

/-- C1 witness: both hypotheses and the conclusion hold at the empty
store and the URL `"http://h/r"`. -/
theorem c1_witness :
    (getAssoc "http://h/r" (Store.mk [] [] 0).strKeys = none) ∧
    (countKey (idKey (0 + 1)) (Store.mk [] [] 0).hashes = 0) ∧
    (let r₁ := clone_checkout_git_repository "http://h/r" [("url", "http://h/r")] (Store.mk [] [] 0)
     let r₂ := clone_checkout_git_repository "http://h/r" [("branch", "dev")] r₁.store
     r₂.gitRepoId = r₁.gitRepoId ∧
     getAssoc "http://h/r" r₂.store.strKeys = some r₁.gitRepoId ∧
     r₂.store.nextId = r₁.store.nextId ∧
     countKey r₁.gitRepoId r₂.store.hashes = 1) :=
  ⟨rfl, rfl,
    c1_resolve_twice_same_identity (Store.mk [] [] 0) "http://h/r"
      [("url", "http://h/r")] [("branch", "dev")] rfl rfl⟩

/-! ## Claim C3 -/

/-- Store in which the URL `"http://h/r"` is already mapped to identity
`git_repo_id:1` with a record in place. -/
def knownUrlStore : Store :=
  ⟨[("http://h/r", idKey 1)], [(idKey 1, [("url", "http://h/r")])], 1⟩

/-- C3 counterexample: registering an already-mapped URL does return the
existing id, but a background materialization unit of work IS started
(`git_clone_proc.start()` runs unconditionally, routes.py lines 197-199),
so the claim "no background materialization unit of work is started for
an already-mapped URL" is false at this input. -/
theorem c3_counterexample :
    getAssoc "http://h/r" knownUrlStore.strKeys = some (idKey 1) ∧
    (clone_checkout_git_repository "http://h/r" [("url", "http://h/r")] knownUrlStore).gitRepoId
      = idKey 1 ∧
    (clone_checkout_git_repository "http://h/r" [("url", "http://h/r")]
        knownUrlStore).processStarted = true :=
  ⟨rfl, rfl, rfl⟩

/-- C3 amended: registering an already-mapped URL returns the existing
id, advances no counter, touches no url mapping, and creates no new
record (it rewrites the existing one in place) — but a new background
materialization unit of work is started on every registration, including
for an already-mapped URL. -/
theorem c3_register_known_url (σ : Store) (u s : String) (rep : Fields)
    (hm : getAssoc u σ.strKeys = some s) (hs : s ≠ "")
    (hrec : 1 ≤ countKey s σ.hashes) :
    (clone_checkout_git_repository u rep σ).gitRepoId = s ∧
    (clone_checkout_git_repository u rep σ).store.nextId = σ.nextId ∧
    (clone_checkout_git_repository u rep σ).store.strKeys = σ.strKeys ∧
    countKey s (clone_checkout_git_repository u rep σ).store.hashes = countKey s σ.hashes ∧
    (∀ k, k ≠ s → countKey k (clone_checkout_git_repository u rep σ).store.hashes
      = countKey k σ.hashes) ∧
    (clone_checkout_git_repository u rep σ).processStarted = true := by
  have hcall : clone_checkout_git_repository u rep σ =
      { store := hmset σ s rep, gitRepoId := s, processStarted := true } := by
    simp [clone_checkout_git_repository, hm, hs]
  rw [hcall]
  refine ⟨rfl, rfl, rfl, ?_, ?_, rfl⟩
  · simp only [hmset]
    rw [countKey_setAssoc_self]
    omega
  · intro k hk
    simp only [hmset]
    rw [countKey_setAssoc_ne _ _ _ _ (fun hc => hk hc.symm)]

/-- C3 amended witness: the amended statement at the concrete known-URL
store. -/
theorem c3_witness :
    (getAssoc "http://h/r" knownUrlStore.strKeys = some (idKey 1)) ∧
    (idKey 1 ≠ "") ∧
    (1 ≤ countKey (idKey 1) knownUrlStore.hashes) ∧
    ((clone_checkout_git_repository "http://h/r" [("branch", "dev")] knownUrlStore).gitRepoId
        = idKey 1 ∧
     (clone_checkout_git_repository "http://h/r" [("branch", "dev")] knownUrlStore).store.nextId
        = knownUrlStore.nextId ∧
     (clone_checkout_git_repository "http://h/r" [("branch", "dev")] knownUrlStore).store.strKeys
        = knownUrlStore.strKeys ∧
     countKey (idKey 1)
        (clone_checkout_git_repository "http://h/r" [("branch", "dev")] knownUrlStore).store.hashes
        = countKey (idKey 1) knownUrlStore.hashes ∧
     (∀ k, k ≠ idKey 1 →
        countKey k
          (clone_checkout_git_repository "http://h/r" [("branch", "dev")] knownUrlStore).store.hashes
          = countKey k knownUrlStore.hashes) ∧
     (clone_checkout_git_repository "http://h/r" [("branch", "dev")] knownUrlStore).processStarted
        = true) :=
  ⟨rfl, idKey_ne_empty 1, by decide,
    c3_register_known_url knownUrlStore "http://h/r" (idKey 1) [("branch", "dev")]
      rfl (idKey_ne_empty 1) (by decide)⟩

/-! ## Claim C9 -/

/-- First registration of `"http://h/r"` with branch `master`, starting
from the empty store. -/
def firstRegistration : RegResult :=
  clone_checkout_git_repository "http://h/r"
    [("url", "http://h/r"), ("branch", "master")] (Store.mk [] [] 0)

/-- C9 counterexample: a second registration of the same URL with branch
`development` reuses the identity but `hmset` overwrites the stored
branch with the second request's value (routes.py lines 193-195), so the
claim that the record keeps the first registration's branch is false at
this input. -/
theorem c9_counterexample :
    hget firstRegistration.store firstRegistration.gitRepoId "branch" = some "master" ∧
    (clone_checkout_git_repository "http://h/r"
        [("url", "http://h/r"), ("branch", "development")]
        firstRegistration.store).gitRepoId = firstRegistration.gitRepoId ∧
    hget (clone_checkout_git_repository "http://h/r"
        [("url", "http://h/r"), ("branch", "development")]
        firstRegistration.store).store firstRegistration.gitRepoId "branch"
      = some "development" :=
  ⟨rfl, rfl, rfl⟩

/-- C9 amended: a second registration with the same URL reuses the first
registration's identity, but every field supplied by the second request
(branch and revision included) replaces the stored value; only fields the
second request does not carry keep the first registration's values. -/
theorem c9_second_registration_fields (σ : Store) (u s f : String) (rep₂ : Fields)
    (hm : getAssoc u σ.strKeys = some s) (hs : s ≠ "")
    (hnd : (rep₂.map Prod.fst).Nodup) :
    (clone_checkout_git_repository u rep₂ σ).gitRepoId = s ∧
    (∀ v, getAssoc f rep₂ = some v →
      hget (clone_checkout_git_repository u rep₂ σ).store s f = some v) ∧
    (getAssoc f rep₂ = none →
      hget (clone_checkout_git_repository u rep₂ σ).store s f = hget σ s f) := by
  have hcall : clone_checkout_git_repository u rep₂ σ =
      { store := hmset σ s rep₂, gitRepoId := s, processStarted := true } := by
    simp [clone_checkout_git_repository, hm, hs]
  rw [hcall]
  have hbase : hget (hmset σ s rep₂) s f =
      match getAssoc f rep₂ with
      | some v => some v
      | none => getAssoc f ((getAssoc s σ.hashes).getD []) := by
    show (match getAssoc s (setAssoc s (setFields ((getAssoc s σ.hashes).getD []) rep₂)
        σ.hashes) with
      | none => none
      | some fs => getAssoc f fs) = _
    rw [getAssoc_setAssoc_self]
    exact getAssoc_setFields f _ rep₂ hnd
  refine ⟨rfl, ?_, ?_⟩
  · intro v hv
    rw [hbase, hv]
  · intro hnone
    rw [hbase, hnone]
    show _ = hget σ s f
    unfold hget
    cases hσ : getAssoc s σ.hashes with
    | none => simp [hσ, getAssoc]
    | some fs => simp [hσ]

/-- C9 amended witness: at the concrete second registration, the
supplied branch replaces the stored one and the unsupplied url field is
kept. -/
theorem c9_witness :
    (getAssoc "http://h/r" firstRegistration.store.strKeys
      = some firstRegistration.gitRepoId) ∧
    (firstRegistration.gitRepoId ≠ "") ∧
    ((clone_checkout_git_repository "http://h/r" [("branch", "development")]
        firstRegistration.store).gitRepoId = firstRegistration.gitRepoId ∧
     (∀ v, getAssoc "branch" [("branch", "development")] = some v →
        hget (clone_checkout_git_repository "http://h/r" [("branch", "development")]
          firstRegistration.store).store firstRegistration.gitRepoId "branch" = some v) ∧
     (getAssoc "branch" [("branch", "development")] = none →
        hget (clone_checkout_git_repository "http://h/r" [("branch", "development")]
          firstRegistration.store).store firstRegistration.gitRepoId "branch"
        = hget firstRegistration.store firstRegistration.gitRepoId "branch")) :=
  ⟨rfl, idKey_ne_empty 1,
    c9_second_registration_fields firstRegistration.store "http://h/r"
      firstRegistration.gitRepoId "branch" [("branch", "development")]
      rfl (idKey_ne_empty 1) (by decide)⟩

/-! ## Claim C4 -/

/-- C4 counterexample: in the batch `[2, 1]`, id 1 is registered but not
materialized, yet the loop raises for the unknown id 2 first and never
reports the `not yet cloned` error for id 1 — the claim's "remove reports
a client error for that id" fails for an id behind an earlier failure. -/
theorem c4_counterexample :
    hget knownUrlStore (idKey 1) "url" = some "http://h/r" ∧
    check_repo_was_cloned (FileSystem.mk []) knownUrlStore
      (pathJoin GIT_REPOS_PATH (repoName "http://h/r")) (idKey 1) = false ∧
    remove_repos_by_id knownUrlStore (FileSystem.mk []) [2, 1]
      = ⟨knownUrlStore, FileSystem.mk [], some (RemoveError.unknownRepository 2)⟩ ∧
    (remove_repos_by_id knownUrlStore (FileSystem.mk []) [2, 1]).error
      ≠ some (RemoveError.notYetCloned 1) :=
  ⟨rfl, rfl, rfl, by decide⟩

/-- C4 amended: when the removal loop reaches a registered-but-
unmaterialized id (it is not shadowed by an earlier failing id), remove
reports the client error for that id and changes nothing at all: store,
url mapping and filesystem are returned untouched. -/
theorem c4_remove_unmaterialized (σ : Store) (fs : FileSystem) (i : Nat) (rest : List Nat)
    (u : String)
    (hurl : hget σ (idKey i) "url" = some u) (hu : u ≠ "")
    (hnc : check_repo_was_cloned fs σ (pathJoin GIT_REPOS_PATH (repoName u)) (idKey i)
      = false) :
    remove_repos_by_id σ fs (i :: rest) = ⟨σ, fs, some (RemoveError.notYetCloned i)⟩ := by
  simp [remove_repos_by_id, hurl, hu, hnc]

/-- C4 amended witness: removing the registered-but-unmaterialized id 1
reports `notYetCloned 1` and returns the state unchanged. -/
theorem c4_witness :
    (hget knownUrlStore (idKey 1) "url" = some "http://h/r") ∧
    ("http://h/r" ≠ "") ∧
    (check_repo_was_cloned (FileSystem.mk []) knownUrlStore
      (pathJoin GIT_REPOS_PATH (repoName "http://h/r")) (idKey 1) = false) ∧
    remove_repos_by_id knownUrlStore (FileSystem.mk []) [1]
      = ⟨knownUrlStore, FileSystem.mk [], some (RemoveError.notYetCloned 1)⟩ :=
  ⟨rfl, by decide, rfl,
    c4_remove_unmaterialized knownUrlStore (FileSystem.mk []) 1 [] "http://h/r"
      rfl (by decide) rfl⟩

/-! ## Claim C5 -/

/-- C5: removing a materialized identity deletes the working copy
subtree, the repository record and the url-to-id mapping, and a
subsequent registration of the same URL allocates a fresh identity
different from the removed one (the counter invariant `i ≤ nextId` holds
for every identity the counter ever handed out). -/
theorem c5_remove_materialized (σ : Store) (fs : FileSystem) (i : Nat) (u : String)
    (rep : Fields)
    (hurl : hget σ (idKey i) "url" = some u) (hu : u ≠ "")
    (hcl : check_repo_was_cloned fs σ (pathJoin GIT_REPOS_PATH (repoName u)) (idKey i) = true)
    (hctr : i ≤ σ.nextId) :
    let out := remove_repos_by_id σ fs [i]
    out.error = none ∧
    getAssoc (pathJoin GIT_REPOS_PATH (repoName u)) out.fs.repos = none ∧
    getAssoc (idKey i) out.store.hashes = none ∧
    getAssoc u out.store.strKeys = none ∧
    (clone_checkout_git_repository u rep out.store).gitRepoId = idKey (σ.nextId + 1) ∧
    (clone_checkout_git_repository u rep out.store).gitRepoId ≠ idKey i := by
  intro out
  have hout : out = ⟨⟨delAssoc u σ.strKeys, delAssoc (idKey i) σ.hashes, σ.nextId⟩,
      ⟨delAssoc (pathJoin GIT_REPOS_PATH (repoName u)) fs.repos⟩, none⟩ := by
    show remove_repos_by_id σ fs [i] = _
    simp [remove_repos_by_id, hurl, hu, hcl]
  have hreg : (clone_checkout_git_repository u rep out.store).gitRepoId
      = idKey (σ.nextId + 1) := by
    rw [hout]
    simp [clone_checkout_git_repository, getAssoc_delAssoc_self]
  refine ⟨by rw [hout], ?_, ?_, ?_, hreg, ?_⟩
  · rw [hout]; exact getAssoc_delAssoc_self _ _
  · rw [hout]; exact getAssoc_delAssoc_self _ _
  · rw [hout]; exact getAssoc_delAssoc_self _ _
  · rw [hreg]
    intro h
    have := idKey_inj h
    omega

/-- C5 witness: the materialized store and filesystem below satisfy every
hypothesis, and removal plus re-registration yields the fresh identity
`git_repo_id:2`. -/
def matStore : Store :=
  ⟨[("http://h/r", idKey 1)], [(idKey 1, [("url", "http://h/r"), ("last_checkout", "t")])], 1⟩

def matFs : FileSystem :=
  ⟨[(pathJoin GIT_REPOS_PATH (repoName "http://h/r"), ⟨true, 1⟩)]⟩

theorem c5_witness :
    (hget matStore (idKey 1) "url" = some "http://h/r") ∧
    ("http://h/r" ≠ "") ∧
    (check_repo_was_cloned matFs matStore
      (pathJoin GIT_REPOS_PATH (repoName "http://h/r")) (idKey 1) = true) ∧
    (1 ≤ matStore.nextId) ∧
    (let out := remove_repos_by_id matStore matFs [1]
     out.error = none ∧
     getAssoc (pathJoin GIT_REPOS_PATH (repoName "http://h/r")) out.fs.repos = none ∧
     getAssoc (idKey 1) out.store.hashes = none ∧
     getAssoc "http://h/r" out.store.strKeys = none ∧
     (clone_checkout_git_repository "http://h/r" [("url", "http://h/r")] out.store).gitRepoId
       = idKey (matStore.nextId + 1) ∧
     (clone_checkout_git_repository "http://h/r" [("url", "http://h/r")] out.store).gitRepoId
       ≠ idKey 1) :=
  ⟨rfl, by decide, by decide, by decide,
    c5_remove_materialized matStore matFs 1 "http://h/r" [("url", "http://h/r")]
      rfl (by decide) (by decide) (by decide)⟩

/-! ## Claim C7 -/

/-- C7 counterexample: in the batch `[2, 1]`, id 1 is materialized and
removable on its own, but the failure on the unknown id 2 aborts the
loop, so id 1 is not removed — ids are not removed independently of
failures on other ids in the batch. -/
theorem c7_counterexample :
    check_repo_was_cloned matFs matStore
      (pathJoin GIT_REPOS_PATH (repoName "http://h/r")) (idKey 1) = true ∧
    remove_repos_by_id matStore matFs [2, 1]
      = ⟨matStore, matFs, some (RemoveError.unknownRepository 2)⟩ ∧
    getAssoc (idKey 1) (remove_repos_by_id matStore matFs [2, 1]).store.hashes
      = some [("url", "http://h/r"), ("last_checkout", "t")] :=
  ⟨by decide, rfl, rfl⟩

/-- C7 amended: batch removal is sequential with a short circuit —
removals performed before the first failure are kept (never rolled back)
and the suffix after the first failure is not attempted; the caller gets
the single error of the first failing id. -/
theorem c7_batch_semantics (σ : Store) (fs : FileSystem) (pre suf : List Nat) :
    remove_repos_by_id σ fs (pre ++ suf) =
      match remove_repos_by_id σ fs pre with
      | ⟨σ₁, fs₁, none⟩ => remove_repos_by_id σ₁ fs₁ suf
      | ⟨σ₁, fs₁, some e⟩ => ⟨σ₁, fs₁, some e⟩ := by
  induction pre generalizing σ fs with
  | nil => simp [remove_repos_by_id]
  | cons i rest ih =>
    rw [List.cons_append]
    cases hurl : hget σ (idKey i) "url" with
    | none => simp [remove_repos_by_id, hurl]
    | some u =>
      by_cases hu : u = ""
      · simp [remove_repos_by_id, hurl, hu]
      · by_cases hcl : check_repo_was_cloned fs σ
            (pathJoin GIT_REPOS_PATH (repoName u)) (idKey i) = true
        · simp only [remove_repos_by_id, hurl, hu, hcl, if_true, if_false, if_neg hu]
          exact ih _ _
        · simp [remove_repos_by_id, hurl, hu, hcl]

/-! ## Claim C6 -/

theorem getLast?_lockShape {α : Type} (e x : α) (l₁ l₂ l₃ : List α) :
    (e :: (l₁ ++ (l₂ ++ (l₃ ++ [x])))).getLast? = some x := by
  have h : e :: (l₁ ++ (l₂ ++ (l₃ ++ [x]))) = (e :: (l₁ ++ l₂ ++ l₃)) ++ [x] := by simp
  rw [h, List.getLast?_concat]

/-- C6: whatever the outcomes of the version-control calls (including
every caught `git.exc` failure), the unit of work opens with the lock
acquisition on `repo_name + '.lock'` and its final event is the release
of that same lock. -/
theorem c6_lock_released (σ : Store) (fs : FileSystem) (id u : String)
    (git : GitBehavior) (env : StatsEnv)
    (hurl : hget σ id "url" = some u) :
    ∃ res, run_git_clone_or_checkout σ fs id git env = some res ∧
      res.trace.head? = some (Event.lockAcquire (repoName u ++ ".lock"), σ) ∧
      ∃ σf, res.trace.getLast? = some (Event.lockRelease (repoName u ++ ".lock"), σf) := by
  unfold run_git_clone_or_checkout
  rw [hurl]
  exact ⟨_, rfl, rfl, _, getLast?_lockShape _ _ _ _ _⟩

/-- C6 witness: the conclusion at the materialized store with a failing
branch checkout. -/
theorem c6_witness :
    (hget matStore (idKey 1) "url" = some "http://h/r") ∧
    (∃ res, run_git_clone_or_checkout matStore matFs (idKey 1)
        ⟨true, false, true, true, ⟨true, 1⟩⟩ ⟨"1K", "t2", [], ["a"]⟩ = some res ∧
      res.trace.head? = some (Event.lockAcquire (repoName "http://h/r" ++ ".lock"), matStore) ∧
      ∃ σf, res.trace.getLast?
        = some (Event.lockRelease (repoName "http://h/r" ++ ".lock"), σf)) :=
  ⟨rfl, c6_lock_released matStore matFs (idKey 1) "http://h/r"
    ⟨true, false, true, true, ⟨true, 1⟩⟩ ⟨"1K", "t2", [], ["a"]⟩ rfl⟩

/-! ## Claim C2 -/

/-- C2: on the update path (working copy already materialized) with all
version-control calls succeeding, the unit of work deletes
`last_checkout` first, then checks out the branch, then the pinned
revision if present, and only then writes the stats with the fresh
timestamp; every intermediate store snapshot between the delete and the
stats write has no `last_checkout`, and the written store carries the
fresh one. -/
theorem c2_update_clears_last_checkout (σ : Store) (fs : FileSystem) (id u : String)
    (git : GitBehavior) (env : StatsEnv)
    (hurl : hget σ id "url" = some u)
    (hcl : check_repo_was_cloned fs σ (pathJoin GIT_REPOS_PATH (repoName u)) id = true)
    (hopen : git.openOk = true) (hbr : git.checkoutBranchOk = true)
    (hrv : git.checkoutRevisionOk = true) :
    run_git_clone_or_checkout σ fs id git env = some
      { trace := (Event.lockAcquire (repoName u ++ ".lock"), σ) ::
          ([(Event.hdelLastCheckout, hdel σ id "last_checkout"),
            (Event.gitOpenRepo (pathJoin GIT_REPOS_PATH (repoName u)),
              hdel σ id "last_checkout"),
            (Event.gitCheckoutBranch (repoBranch σ id), hdel σ id "last_checkout")] ++
           ((match repoRevision σ id with
             | some r => [(Event.gitCheckoutRevision r, hdel σ id "last_checkout")]
             | none => []) ++
            ([(Event.writeStats, update_repo_stats (hdel σ id "last_checkout") id env)] ++
             [(Event.lockRelease (repoName u ++ ".lock"),
               update_repo_stats (hdel σ id "last_checkout") id env)]))),
        store := update_repo_stats (hdel σ id "last_checkout") id env,
        fs := fs } ∧
    hget (hdel σ id "last_checkout") id "last_checkout" = none ∧
    hget (update_repo_stats (hdel σ id "last_checkout") id env) id "last_checkout"
      = some env.checkoutTime := by
  refine ⟨?_, hget_hdel_self σ id "last_checkout",
    hget_update_repo_stats_last_checkout _ id env⟩
  unfold run_git_clone_or_checkout
  rw [hurl]
  simp only [runStage₁, runStage₂, runStage₃, hcl, hopen, hbr, hrv, if_true]
  cases hr : repoRevision σ id with
  | none => simp
  | some r => simp

/-- C2 witness: the update path at the concrete materialized store, via
the theorem itself. -/
theorem c2_witness :
    (hget matStore (idKey 1) "url" = some "http://h/r") ∧
    (check_repo_was_cloned matFs matStore
      (pathJoin GIT_REPOS_PATH (repoName "http://h/r")) (idKey 1) = true) ∧
    (run_git_clone_or_checkout matStore matFs (idKey 1)
        ⟨true, true, true, true, ⟨true, 1⟩⟩ ⟨"1K", "t2", [], ["a"]⟩ = some
      { trace := (Event.lockAcquire (repoName "http://h/r" ++ ".lock"), matStore) ::
          ([(Event.hdelLastCheckout, hdel matStore (idKey 1) "last_checkout"),
            (Event.gitOpenRepo (pathJoin GIT_REPOS_PATH (repoName "http://h/r")),
              hdel matStore (idKey 1) "last_checkout"),
            (Event.gitCheckoutBranch (repoBranch matStore (idKey 1)),
              hdel matStore (idKey 1) "last_checkout")] ++
           ((match repoRevision matStore (idKey 1) with
             | some r => [(Event.gitCheckoutRevision r, hdel matStore (idKey 1) "last_checkout")]
             | none => []) ++
            ([(Event.writeStats, update_repo_stats (hdel matStore (idKey 1) "last_checkout")
                (idKey 1) ⟨"1K", "t2", [], ["a"]⟩)] ++
             [(Event.lockRelease (repoName "http://h/r" ++ ".lock"),
               update_repo_stats (hdel matStore (idKey 1) "last_checkout")
                 (idKey 1) ⟨"1K", "t2", [], ["a"]⟩)]))),
        store := update_repo_stats (hdel matStore (idKey 1) "last_checkout")
          (idKey 1) ⟨"1K", "t2", [], ["a"]⟩,
        fs := matFs } ∧
     hget (hdel matStore (idKey 1) "last_checkout") (idKey 1) "last_checkout" = none ∧
     hget (update_repo_stats (hdel matStore (idKey 1) "last_checkout")
        (idKey 1) ⟨"1K", "t2", [], ["a"]⟩) (idKey 1) "last_checkout" = some "t2") :=
  ⟨rfl, by decide,
    c2_update_clears_last_checkout matStore matFs (idKey 1) "http://h/r"
      ⟨true, true, true, true, ⟨true, 1⟩⟩ ⟨"1K", "t2", [], ["a"]⟩
      rfl (by decide) rfl rfl rfl⟩

/-! ## Claim C8 -/

theorem pySplitAux_token (xs : List Char) (rest acc : List Char)
    (h : ∀ c ∈ xs, ¬ c.isWhitespace) :
    pySplitAux (xs ++ rest) acc = pySplitAux rest (xs.reverse ++ acc) := by
  induction xs generalizing acc with
  | nil => simp
  | cons c cs ih =>
    have hc : ¬ c.isWhitespace = true := by
      simpa using h c (List.mem_cons_self c cs)
    show pySplitAux (c :: (cs ++ rest)) acc = _
    rw [pySplitAux, if_neg hc, ih _ (fun x hx => h x (List.mem_cons_of_mem _ hx))]
    have hacc : cs.reverse ++ (c :: acc) = (c :: cs).reverse ++ acc := by simp
    rw [hacc]

/-- On tracked paths that are non-empty and whitespace-free, Python's
whitespace split recovers exactly the lines of the `ls-files` output. -/
theorem pySplit_lsFilesOutput (files : List String)
    (h : ∀ p ∈ files, p.data ≠ [] ∧ ∀ c ∈ p.data, ¬ c.isWhitespace) :
    pySplit (lsFilesOutput files) = files.map String.data := by
  induction files with
  | nil => rfl
  | cons f fs ih =>
    cases fs with
    | nil =>
      obtain ⟨hne, hws⟩ := h f (by simp)
      show pySplitAux f.data [] = [f.data]
      have h0 := pySplitAux_token f.data [] [] hws
      rw [List.append_nil] at h0
      rw [h0, List.append_nil, pySplitAux]
      simp [hne]
    | cons g gs =>
      obtain ⟨hne, hws⟩ := h f (by simp)
      show pySplitAux (f.data ++ '\n' :: lsFilesOutput (g :: gs)) [] = _
      rw [pySplitAux_token _ _ _ hws, List.append_nil, pySplitAux]
      have hrev : ¬ f.data.reverse = [] := by simpa using hne
      rw [if_pos (by decide), if_neg hrev]
      have := ih (fun p hp => h p (List.mem_cons_of_mem _ hp))
      show f.data.reverse.reverse :: pySplit (lsFilesOutput (g :: gs)) = _
      rw [this, List.reverse_reverse]
      simp

/-- Stats environment whose only tracked path contains a space. -/
def wsEnv : StatsEnv := ⟨"1K", "t", [], ["a b.txt"]⟩

/-- C8 counterexample: with the single tracked file `a b.txt`, the
`ls_files().split()` tokenization (routes.py line 109) yields two
whitespace-delimited tokens, so `total_files` is 2 while the checkout
tracks exactly one file — the claim fails for paths containing
whitespace. -/
theorem c8_counterexample :
    (collectStats wsEnv).total_files = 2 ∧ wsEnv.trackedFiles.length = 1 ∧
    (collectStats wsEnv).total_files ≠ wsEnv.trackedFiles.length :=
  ⟨rfl, rfl, by decide⟩

/-- C8 amended: `total_files` counts the whitespace-delimited tokens of
the `ls-files` output; it equals the number of version-control-tracked
files whenever every tracked path is non-empty and free of whitespace
characters. -/
theorem c8_total_files (env : StatsEnv)
    (h : ∀ p ∈ env.trackedFiles, p.data ≠ [] ∧ ∀ c ∈ p.data, ¬ c.isWhitespace) :
    (collectStats env).total_files = env.trackedFiles.length := by
  show (pySplit (lsFilesOutput env.trackedFiles)).length = _
  rw [pySplit_lsFilesOutput _ h, List.length_map]

/-- C8 amended witness: two whitespace-free tracked paths give
`total_files = 2`. -/
theorem c8_witness :
    (∀ p ∈ (StatsEnv.mk "1K" "t" [] ["a.txt", "b.txt"]).trackedFiles,
      p.data ≠ [] ∧ ∀ c ∈ p.data, ¬ c.isWhitespace) ∧
    (collectStats (StatsEnv.mk "1K" "t" [] ["a.txt", "b.txt"])).total_files
      = (StatsEnv.mk "1K" "t" [] ["a.txt", "b.txt"]).trackedFiles.length :=
  ⟨by decide, c8_total_files (StatsEnv.mk "1K" "t" [] ["a.txt", "b.txt"]) (by decide)⟩

/-! ## Claim C10 -/

/-- C10: the explicit-id branch of the GET handler keys its `hgetall`
calls by the bare decimal id, while every record in a store produced by
the registration path lives under a `git_repo_id:`-named key, so the
response pairs every supplied id with the empty field map — even when
the id's record exists. -/
theorem c10_get_by_ids_empty (σ : Store) (ids : List Nat)
    (hwf : ∀ p ∈ σ.hashes, ∃ n, p.1 = idKey n) :
    get_git_repositories_by_ids σ ids = ids.map (fun i => (Nat.repr i, ([] : Fields))) := by
  unfold get_git_repositories_by_ids
  apply List.map_congr_left
  intro i _
  have hnone : getAssoc (Nat.repr i) σ.hashes = none := by
    apply getAssoc_eq_none_of_not_mem
    intro hmem
    simp only [List.mem_map] at hmem
    obtain ⟨p, hp, hkey⟩ := hmem
    obtain ⟨n, hn⟩ := hwf p hp
    rw [hn] at hkey
    exact repr_ne_idKey i n hkey.symm
  rw [hnone]
  rfl

/-- C10 witness: at the materialized store (whose record lives under
`git_repo_id:1`), polling id 1 returns the empty field map. -/
theorem c10_witness :
    (∀ p ∈ matStore.hashes, ∃ n, p.1 = idKey n) ∧
    get_git_repositories_by_ids matStore [1]
      = [1].map (fun i => (Nat.repr i, ([] : Fields))) :=
  ⟨fun p hp => ⟨1, by
      simp only [matStore, List.mem_singleton] at hp
      rw [hp]⟩,
    c10_get_by_ids_empty matStore [1] (fun p hp => ⟨1, by
      simp only [matStore, List.mem_singleton] at hp
      rw [hp]⟩)⟩

end GitStat
